import Mathlib

/-!
Shallow embedding of the emuchip CHIP-8 emulator.

The compiled crate is `src/main.rs` (which declares only `mod display;`)
together with `src/display.rs`; the files `src/decode.rs`, `src/memory.rs`,
`src/registers.rs`, `src/emulator.rs`, `src/timer.rs`, `src/keyboard.rs`,
`src/sound.rs` are an in-progress refactor whose contents duplicate
`main.rs` (they are byte-for-byte the same definitions).  The embedding
below is translated from `main.rs`/`display.rs` and is therefore equally a
translation of the duplicated module files cited by the claims.

Conventions:
* machine integers (`u8`, `u16`, `u128`, `usize`) are `Nat`, with explicit
  `% 256` / `&&& 0xFF` exactly where the source wraps;
* Rust panics (`unwrap`, out-of-bounds indexing, the `panic!` guards in
  `RawInstruction`) and `process::exit(0)` are `Option.none`;
* the external collaborators (window, wall clock, RNG) enter as explicit
  parameters: the list of currently pressed physical keys, the sampled
  random value, and the elapsed milliseconds.
-/

namespace Emuchip

/-! ## Decoder (`src/main.rs` lines 266-511, duplicated in `src/decode.rs`) -/

/-- The mask built by the `for _ in 0..m` loop in
`RawInstruction::nth_m_digits`: `m` times `mask = (mask << 4) | 0b1111`. -/
def maskN : Nat → Nat
  | 0 => 0
  | m + 1 => (maskN m <<< 4) ||| 0b1111

/-- `RawInstruction::nth_m_digits(n, m)`: the `m`-nibble field starting at
1-indexed nibble `n` of a 16-bit code.  `shift_places` uses `u8`
subtraction; at every call site `m + (n - 1) ≤ 4`, so `Nat` truncated
subtraction agrees with it. -/
def nth_m_digits (code n m : Nat) : Nat :=
  let shift_places := (4 - m - (n - 1)) * 4
  (code &&& (maskN m <<< shift_places)) >>> shift_places

/-- `RawInstruction::start_identifier`: reads one nibble at the cursor `i`
and advances it; the `i > 1` guard is the source's `panic!()` (`none`). -/
def start_identifier (code i : Nat) : Option (Nat × Nat) :=
  if i > 1 then none else some (nth_m_digits code i 1, i + 1)

/-- `RawInstruction::next_register` (also `next_u4`). -/
def next_register (code i : Nat) : Option (Nat × Nat) :=
  if i > 4 then none else some (nth_m_digits code i 1, i + 1)

/-- `RawInstruction::next_address`. -/
def next_address (code i : Nat) : Option (Nat × Nat) :=
  if i > 2 then none else some (nth_m_digits code i 3, i + 3)

/-- `RawInstruction::next_u8`. -/
def next_u8 (code i : Nat) : Option (Nat × Nat) :=
  if i > 3 then none else some (nth_m_digits code i 2, i + 2)

/-- `RawInstruction::next_u4` delegates to `next_register`. -/
def next_u4 (code i : Nat) : Option (Nat × Nat) := next_register code i

/-- The `OpCodes` enum. -/
inductive OpCodes where
  | ClearScreen
  | Jump (addr : Nat)
  | SetRegister (vx nn : Nat)
  | AddToRegister (vx nn : Nat)
  | SetIndexRegister (addr : Nat)
  | Display (regX regY height : Nat)
  | PushSubroutine (addr : Nat)
  | PopSubroutine
  | SkipEqualConstant (vx nn : Nat)
  | SkipNotEqualConstant (vx nn : Nat)
  | SkipEqualRegister (vx vy : Nat)
  | SkipNotEqualRegister (vx vy : Nat)
  | CopyRegister (vx vy : Nat)
  | Or (vx vy : Nat)
  | And (vx vy : Nat)
  | XOr (vx vy : Nat)
  | Add (vx vy : Nat)
  | SubtractForward (vx vy : Nat)
  | SubtractBackward (vx vy : Nat)
  | LeftShift (vx vy : Nat)
  | RightShift (vx vy : Nat)
  | JumpWithOffset (addr : Nat)
  | Random (vx nn : Nat)
  | SkipIfPressed (vx : Nat)
  | SkipIfNotPressed (vx : Nat)
  | CopyDelayToRegister (vx : Nat)
  | CopyRegisterToDelay (vx : Nat)
  | CopyRegisterToSound (vx : Nat)
  | AddToIndex (vx : Nat)
  | GetKey (vx : Nat)
  | PointChar (vx : Nat)
  | ToDecimal (vx : Nat)
  | LoadRegisterFromMemory (vx : Nat)
  | StoreRegisterToMemory (vx : Nat)
  | Unimplemented
deriving DecidableEq

/-- `OpCodes::decode_raw`, with the sequential cursor consumption made
explicit (Rust evaluates tuple-struct arguments left to right). -/
def decode_raw (ins : Nat) : Option OpCodes := do
  let (id, i) ← start_identifier ins 1
  match id with
  | 0x0 =>
    if ins = 0x00E0 then pure OpCodes.ClearScreen
    else if ins = 0x00EE then pure OpCodes.PopSubroutine
    else pure OpCodes.Unimplemented
  | 0x1 => do
    let (a, _) ← next_address ins i
    pure (OpCodes.Jump a)
  | 0x2 => do
    let (a, _) ← next_address ins i
    pure (OpCodes.PushSubroutine a)
  | 0x3 => do
    let (x, i) ← next_register ins i
    let (nn, _) ← next_u8 ins i
    pure (OpCodes.SkipEqualConstant x nn)
  | 0x4 => do
    let (x, i) ← next_register ins i
    let (nn, _) ← next_u8 ins i
    pure (OpCodes.SkipNotEqualConstant x nn)
  | 0x5 => do
    let (x, i) ← next_register ins i
    let (y, _) ← next_register ins i
    pure (OpCodes.SkipEqualRegister x y)
  | 0x6 => do
    let (x, i) ← next_register ins i
    let (nn, _) ← next_u8 ins i
    pure (OpCodes.SetRegister x nn)
  | 0x7 => do
    let (x, i) ← next_register ins i
    let (nn, _) ← next_u8 ins i
    pure (OpCodes.AddToRegister x nn)
  | 0x8 => do
    let (x, i) ← next_register ins i
    let (y, i) ← next_register ins i
    let (t, _) ← next_u4 ins i
    match t with
    | 0x0 => pure (OpCodes.CopyRegister x y)
    | 0x1 => pure (OpCodes.Or x y)
    | 0x2 => pure (OpCodes.And x y)
    | 0x3 => pure (OpCodes.XOr x y)
    | 0x4 => pure (OpCodes.Add x y)
    | 0x5 => pure (OpCodes.SubtractForward x y)
    | 0x6 => pure (OpCodes.RightShift x y)
    | 0x7 => pure (OpCodes.SubtractBackward x y)
    | 0xE => pure (OpCodes.LeftShift x y)
    | _ => pure OpCodes.Unimplemented
  | 0x9 => do
    let (x, i) ← next_register ins i
    let (y, _) ← next_register ins i
    pure (OpCodes.SkipNotEqualRegister x y)
  | 0xA => do
    let (a, _) ← next_address ins i
    pure (OpCodes.SetIndexRegister a)
  | 0xB => do
    let (a, _) ← next_address ins i
    pure (OpCodes.JumpWithOffset a)
  | 0xC => do
    let (x, i) ← next_register ins i
    let (nn, _) ← next_u8 ins i
    pure (OpCodes.Random x nn)
  | 0xD => do
    let (x, i) ← next_register ins i
    let (y, i) ← next_register ins i
    let (h, _) ← next_u4 ins i
    pure (OpCodes.Display x y h)
  | 0xE => do
    let (x, i) ← next_register ins i
    let (t, _) ← next_u8 ins i
    match t with
    | 0x9E => pure (OpCodes.SkipIfPressed x)
    | 0xA1 => pure (OpCodes.SkipIfNotPressed x)
    | _ => pure OpCodes.Unimplemented
  | 0xF => do
    let (x, i) ← next_register ins i
    let (t, _) ← next_u8 ins i
    match t with
    | 0x07 => pure (OpCodes.CopyDelayToRegister x)
    | 0x0A => pure (OpCodes.GetKey x)
    | 0x15 => pure (OpCodes.CopyRegisterToDelay x)
    | 0x18 => pure (OpCodes.CopyRegisterToSound x)
    | 0x1E => pure (OpCodes.AddToIndex x)
    | 0x29 => pure (OpCodes.PointChar x)
    | 0x33 => pure (OpCodes.ToDecimal x)
    | 0x55 => pure (OpCodes.StoreRegisterToMemory x)
    | 0x65 => pure (OpCodes.LoadRegisterFromMemory x)
    | _ => pure OpCodes.Unimplemented
  | _ => pure OpCodes.Unimplemented


/-! ## Display (`src/display.rs`) -/

/-- Pointwise update of a function-represented array. -/
def upd (f : Nat → Nat) (i v : Nat) : Nat → Nat :=
  fun a => if a = i then v else f a

/-- The `FrameBuffer` (without the OS window handle): `bit_buffer` and
`pixel_buffer` are the two `Vec<u32>`s of length 64*32 = 2048, represented
as functions on indices (reads and writes are guarded by the length
2048, mirroring the `Vec` index panics). -/
structure FrameBuffer where
  bit_buffer : Nat → Nat
  pixel_buffer : Nat → Nat
  should_update : Bool

/-- `FrameBuffer::from_u16_rgb`. -/
def from_u16_rgb (r g b : Nat) : Nat := (r <<< 16) ||| (g <<< 8) ||| b

/-- One iteration of the inner `for j in 0..8` loop of `FrameBuffer::paint`:
the pixel of column `j` of the sprite row `row`, at absolute row `ny`.
`none` is the panic of `self.bit_buffer[index]` when `index` is out of
range.  Note the source applies no modulo to `nx`/`ny` and no clipping:
`index = ny * 64 + nx` is linear. -/
def paint_pixel (x ny j row : Nat) (st : FrameBuffer × Bool) :
    Option (FrameBuffer × Bool) :=
  let fb := st.1
  let nx := x + j
  let index := ny * 64 + nx
  let bit := (row >>> (7 - j)) &&& 1
  if index < 2048 then
    let previous := fb.bit_buffer index
    let newBit := previous ^^^ bit
    let vf := if previous ≠ newBit ∧ newBit = 0 then true else st.2
    let bb := upd fb.bit_buffer index newBit
    let pb :=
      if newBit = 0 then upd fb.pixel_buffer index (from_u16_rgb 0 0 0)
      else if newBit = 1 then upd fb.pixel_buffer index (from_u16_rgb 0 127 255)
      else fb.pixel_buffer
    some ({ fb with bit_buffer := bb, pixel_buffer := pb }, vf)
  else none

/-- The inner `for j in 0..8` loop, running `k` more iterations starting at
column `j` (invoked with `k = 8`, `j = 0`). -/
def paint_cols (x ny row : Nat) : Nat → Nat → FrameBuffer × Bool →
    Option (FrameBuffer × Bool)
  | 0, _, st => some st
  | k + 1, j, st => (paint_pixel x ny j row st).bind (paint_cols x ny row k (j + 1))

/-- The outer `for (i, row) in sprite.iter().enumerate()` loop; `ny` is the
absolute row `y + i`. -/
def paint_rows (x : Nat) : Nat → List Nat → FrameBuffer × Bool →
    Option (FrameBuffer × Bool)
  | _, [], st => some st
  | ny, row :: rest, st =>
    (paint_cols x ny row 8 0 st).bind (paint_rows x (ny + 1) rest)

/-- `FrameBuffer::paint(x, y, sprite) -> bool`: XORs the sprite into the
buffers and returns the collision flag; `should_update` is set after the
loops. -/
def paint (fb : FrameBuffer) (x y : Nat) (sprite : List Nat) :
    Option (FrameBuffer × Bool) :=
  (paint_rows x y sprite (fb, false)).map
    (fun st => ({ st.1 with should_update := true }, st.2))

/-- `FrameBuffer::clear_buffer`. -/
def clear_buffer (fb : FrameBuffer) : FrameBuffer :=
  { fb with bit_buffer := fun _ => 0,
            pixel_buffer := fun _ => 0,
            should_update := true }

/-- A fresh `FrameBuffer::new()` (both buffers zeroed). -/
def new_framebuffer : FrameBuffer :=
  { bit_buffer := fun _ => 0,
    pixel_buffer := fun _ => 0,
    should_update := false }

/-! ## Physical keys (`minifb::Key` as far as this program consumes them) -/

/-- The physical keys the program reacts to; `Other` stands for any
`minifb::Key` not matched by `key_to_u8` / `KEYS`. -/
inductive PhysKey where
  | Key0 | Key1 | Key2 | Key3 | Key4 | Key5 | Key6 | Key7 | Key8 | Key9
  | A | B | C | D | E | F
  | Other
deriving DecidableEq

/-- `key_to_u8` from `src/main.rs` lines 532-552 (note the source maps both
`Key4` and `Key5` to `4`, skips `5` ... `8` by one, and maps nothing
to `8`). -/
def key_to_u8 : PhysKey → Option Nat
  | PhysKey.Key0 => some 0
  | PhysKey.Key1 => some 1
  | PhysKey.Key2 => some 2
  | PhysKey.Key3 => some 3
  | PhysKey.Key4 => some 4
  | PhysKey.Key5 => some 4
  | PhysKey.Key6 => some 5
  | PhysKey.Key7 => some 6
  | PhysKey.Key8 => some 7
  | PhysKey.Key9 => some 9
  | PhysKey.A => some 0xA
  | PhysKey.B => some 0xB
  | PhysKey.C => some 0xC
  | PhysKey.D => some 0xD
  | PhysKey.E => some 0xE
  | PhysKey.F => some 0xF
  | PhysKey.Other => none

/-- The `KEYS` array from `src/main.rs` lines 513-530. -/
def KEYS : List PhysKey :=
  [PhysKey.Key0, PhysKey.Key1, PhysKey.Key2, PhysKey.Key3, PhysKey.Key4,
   PhysKey.Key5, PhysKey.Key6, PhysKey.Key7, PhysKey.Key8, PhysKey.Key9,
   PhysKey.A, PhysKey.B, PhysKey.C, PhysKey.D, PhysKey.E, PhysKey.F]

/-! ## Machine state (Memory + Registers + Timers + FrameBuffer) -/

/-- The mutable emulator state: `Memory` (bytes, `ProgramCounter(pc, pc_end)`,
`IndexRegister`, `Stack`), `Registers`, the two timer counts and the
framebuffer.  The stack is most-recent-first (Rust pushes/pops at the
`Vec`'s end). -/
structure Machine where
  bytes : Nat → Nat
  pc : Nat
  pc_end : Nat
  index : Nat
  stack : List Nat
  regs : Nat → Nat
  fb : FrameBuffer
  delay_count : Nat
  sound_count : Nat

/-- `Registers::set_register`; the `[u8; 16]` is a function on indices and
the guard is the Rust index panic. -/
def set_register (regs : Nat → Nat) (reg_num value : Nat) : Option (Nat → Nat) :=
  if reg_num < 16 then some (upd regs reg_num value) else none

/-- `Registers::get`. -/
def get_register (regs : Nat → Nat) (reg_num : Nat) : Option Nat :=
  if reg_num < 16 then some (regs reg_num) else none

/-- `Registers::add_to_register`: `checked_add`, falling back to
`(cur + value) & 0b11111111` on overflow. -/
def add_to_register (regs : Nat → Nat) (reg_num value : Nat) : Option (Nat → Nat) := do
  let cur ← get_register regs reg_num
  if cur + value ≤ 255 then set_register regs reg_num (cur + value)
  else set_register regs reg_num ((cur + value) &&& 0b11111111)

/-- `Memory::set`; the `[u8; 4096]` is a function on addresses and the
guard is the Rust index panic. -/
def mem_set (m : Machine) (addr val : Nat) : Option Machine :=
  if addr < 4096 then some { m with bytes := upd m.bytes addr val }
  else none

/-- `Memory::get`. -/
def mem_get (m : Machine) (addr : Nat) : Option Nat :=
  if addr < 4096 then some (m.bytes addr) else none

/-- `Memory::increment_pc`: `ProgramCounter::increment` adds 2 and reports
whether `pc ≤ pc_end` still holds; on `false` the source calls
`process::exit(0)` (normal termination), embedded as `none`. -/
def increment_pc (m : Machine) : Option Machine :=
  if m.pc + 2 ≤ m.pc_end then some { m with pc := m.pc + 2 } else none

/-- `Memory::decrement_pc`: a no-op at `pc = 0`, otherwise
`ProgramCounter::decrement` does `pc -= 2` (`u16` underflow at `pc = 1`
is the debug-build panic, embedded as `none`). -/
def decrement_pc (m : Machine) : Option Machine :=
  if m.pc = 0 then some m
  else if 2 ≤ m.pc then some { m with pc := m.pc - 2 }
  else none

/-- `Memory::next_instruction`: reads the big-endian pair at `pc`, `pc + 1`,
then `increment_pc`. -/
def next_instruction (m : Machine) : Option (Nat × Machine) := do
  let l ← mem_get m m.pc
  let r ← mem_get m (m.pc + 1)
  let m' ← increment_pc m
  pure ((l <<< 8) ||| r, m')

/-- `DEFAULT_FONT`: the 80-byte font table. -/
def DEFAULT_FONT : List Nat :=
  [0xF0, 0x90, 0x90, 0x90, 0xF0,
   0x20, 0x60, 0x20, 0x20, 0x70,
   0xF0, 0x10, 0xF0, 0x80, 0xF0,
   0xF0, 0x10, 0xF0, 0x10, 0xF0,
   0x90, 0x90, 0xF0, 0x10, 0x10,
   0xF0, 0x80, 0xF0, 0x10, 0xF0,
   0xF0, 0x80, 0xF0, 0x90, 0xF0,
   0xF0, 0x10, 0x20, 0x40, 0x40,
   0xF0, 0x90, 0xF0, 0x90, 0xF0,
   0xF0, 0x90, 0xF0, 0x10, 0xF0,
   0xF0, 0x90, 0xF0, 0x90, 0x90,
   0xE0, 0x90, 0xE0, 0x90, 0xE0,
   0xF0, 0x80, 0x80, 0x80, 0xF0,
   0xE0, 0x90, 0x90, 0x90, 0xE0,
   0xF0, 0x80, 0xF0, 0x80, 0xF0,
   0xF0, 0x80, 0xF0, 0x80, 0x80]

/-- `copy_from_slice` of `vals` into `bytes` starting at `start`. -/
def write_range (bytes : Nat → Nat) (start : Nat) : List Nat → (Nat → Nat)
  | [] => bytes
  | v :: rest => write_range (upd bytes start v) (start + 1) rest

/-- `Memory::load_rom`: sets `pc_end := pc + rom.length`
(`ProgramCounter::set_end`), copies the program at `0x200` ONLY when
`0x200 + rom.length ≤ 4096` (the `if` has no `else`: an oversized program
is silently not written and no error is reported), then always copies the
font at `0x50`.  The Rust function returns `()`: there is no failure
channel, which this embedding mirrors by being total. -/
def load_rom (m : Machine) (rom : List Nat) : Machine :=
  let m1 := { m with pc_end := m.pc + rom.length }
  let m2 :=
    if 0x200 + rom.length ≤ 4096
    then { m1 with bytes := write_range m1.bytes 0x200 rom }
    else m1
  { m2 with bytes := write_range m2.bytes 0x50 DEFAULT_FONT }

/-- `Memory::new()` + `Registers::new()` + `Timer::new(0)` + a cleared
framebuffer: the state just before `load_rom` in `Emulator::init`. -/
def new_machine : Machine :=
  { bytes := fun _ => 0,
    pc := 0x200,
    pc_end := 0,
    index := 0,
    stack := [],
    regs := fun _ => 0,
    fb := new_framebuffer,
    delay_count := 0,
    sound_count := 0 }

/-- `Emulator::init` with a given ROM byte sequence (the file read / bundled
ROM is external input). -/
def init_machine (rom : List Nat) : Machine := load_rom new_machine rom

/-! ## Timers -/

/-- `Timer::sync` from `src/main.rs` lines 185-204 (duplicated in
`src/emulator.rs`): `elapsed_ms` is the truncated wall-clock milliseconds
since the timer's last reset.  `1_000 / 60` is `u128` division, i.e. 16.
When past the deadline it subtracts `num_ticks = elapsed_ms / 16`, clamping
at 0, and returns `true`. -/
def timer_sync (count elapsed_ms : Nat) : Nat × Bool :=
  if count = 0 then (count, false)
  else if elapsed_ms > 1000 / 60 then
    let num_ticks := elapsed_ms / (1000 / 60)
    if count < num_ticks then (0, true) else (count - num_ticks, true)
  else (count, false)

/-- `Timer::sync` from `src/timer.rs` lines 19-31.  This file is NOT part of
the compiled binary (`main.rs` declares only `mod display`); it is the
refactor-in-progress variant, which decrements by exactly one per call once
`elapsed_ms ≥ 1000/60` (integer 16). -/
def timer_sync_single (count elapsed_ms : Nat) : Nat × Bool :=
  if count = 0 then (count, false)
  else if elapsed_ms ≥ 16 then (count - 1, true)
  else (count, false)

/-! ## Executor (`Emulator::execute_ins`, `src/main.rs` lines 605-811) -/

/-- The digit loop of the `ToDecimal` arm: repeatedly pushes `n % 10` and
divides by 10 while nonzero (so the list is least-significant first). -/
def decimal_digits_rev (n : Nat) : List Nat :=
  if h : n = 0 then [] else (n % 10) :: decimal_digits_rev (n / 10)
decreasing_by exact Nat.div_lt_self (Nat.pos_of_ne_zero h) (by omega)

/-- The write loop of the `ToDecimal` arm: `mem.set(index + i, digit)` for
each digit, `i` counting up from 0; `index` is re-read each iteration but
`mem_set` never changes it. -/
def write_digits (m : Machine) : Nat → List Nat → Option Machine
  | _, [] => some m
  | i, d :: rest => do
    let m' ← mem_set m (m.index + i) d
    write_digits m' (i + 1) rest

/-- The sprite-collection loop of the `Display` arm:
`for addr in index..index + height { sprite.push(mem.get(addr)) }`, with
`k` rows remaining starting at address `addr` (invoked with `k = height`,
`addr = index`). -/
def read_sprite (m : Machine) : Nat → Nat → Option (List Nat)
  | 0, _ => some []
  | k + 1, addr => do
    let row ← mem_get m addr
    let rest ← read_sprite m k (addr + 1)
    pure (row :: rest)

/-- The `for reg in 0..=vx` loop of `StoreRegisterToMemory`, with `k`
iterations remaining and `reg` the next register (invoked with
`k = vx + 1`, `reg = 0`). -/
def store_regs (m : Machine) : Nat → Nat → Option Machine
  | 0, _ => some m
  | k + 1, reg => do
    let v ← get_register m.regs reg
    let m' ← mem_set m (m.index + reg) v
    store_regs m' k (reg + 1)

/-- The `for reg in 0..=vx` loop of `LoadRegisterFromMemory`. -/
def load_regs (m : Machine) : Nat → Nat → Option Machine
  | 0, _ => some m
  | k + 1, reg => do
    let v ← mem_get m (m.index + reg)
    let regs ← set_register m.regs reg v
    load_regs { m with regs := regs } k (reg + 1)

/-- `Emulator::execute_ins`.  External inputs: `pressed` is
`window.get_keys()` (the currently pressed physical keys, in order), `rnd`
drives `rng.gen_range(0..=nn)` (modelled as `rnd % (nn + 1)`).  The calls
to `fb.sync()` / `println!` only touch the OS window and stdout and leave
the emulator state unchanged. -/
def execute_ins (pressed : List PhysKey) (rnd : Nat) (m : Machine) :
    OpCodes → Option Machine
  | OpCodes.Jump addr => some { m with pc := addr }
  | OpCodes.SetRegister vx nn => do
    let regs ← set_register m.regs vx nn
    pure { m with regs := regs }
  | OpCodes.AddToRegister vx nn => do
    let regs ← add_to_register m.regs vx nn
    pure { m with regs := regs }
  | OpCodes.SetIndexRegister addr => some { m with index := addr }
  | OpCodes.ClearScreen => some { m with fb := clear_buffer m.fb }
  | OpCodes.Display regX regY height => do
    let x ← get_register m.regs regX
    let y ← get_register m.regs regY
    let sprite ← read_sprite m height m.index
    let (fb', vf) ← paint m.fb x y sprite
    let regs ← set_register m.regs 0xF (if vf then 1 else 0)
    pure { m with fb := fb', regs := regs }
  | OpCodes.PushSubroutine addr =>
    some { m with stack := m.pc :: m.stack, pc := addr }
  | OpCodes.PopSubroutine =>
    match m.stack with
    | [] => none
    | addr :: rest => some { m with pc := addr, stack := rest }
  | OpCodes.CopyRegister vx vy => do
    let v ← get_register m.regs vy
    let regs ← set_register m.regs vx v
    pure { m with regs := regs }
  | OpCodes.Or vx vy => do
    let a ← get_register m.regs vy
    let b ← get_register m.regs vx
    let regs ← set_register m.regs vx (a ||| b)
    pure { m with regs := regs }
  | OpCodes.And vx vy => do
    let a ← get_register m.regs vy
    let b ← get_register m.regs vx
    let regs ← set_register m.regs vx (a &&& b)
    pure { m with regs := regs }
  | OpCodes.XOr vx vy => do
    let a ← get_register m.regs vy
    let b ← get_register m.regs vx
    let regs ← set_register m.regs vx (a ^^^ b)
    pure { m with regs := regs }
  | OpCodes.Add vx vy => do
    let x ← get_register m.regs vy
    let y ← get_register m.regs vx
    if x + y ≤ 255 then do
      let regs ← set_register m.regs vx (x + y)
      let regs ← set_register regs 0xF 0
      pure { m with regs := regs }
    else do
      let regs ← set_register m.regs vx ((x + y) &&& 0b11111111)
      let regs ← set_register regs 0xF 1
      pure { m with regs := regs }
  | OpCodes.SubtractForward vx vy => do
    let x ← get_register m.regs vx
    let y ← get_register m.regs vy
    if y ≤ x then do
      let regs ← set_register m.regs vx (x - y)
      let regs ← set_register regs 0xF 1
      pure { m with regs := regs }
    else do
      let regs ← set_register m.regs vx ((x + 256 - y) % 256)
      let regs ← set_register regs 0xF 0
      pure { m with regs := regs }
  | OpCodes.SubtractBackward vx vy => do
    let x ← get_register m.regs vx
    let y ← get_register m.regs vy
    if x ≤ y then do
      let regs ← set_register m.regs vx (y - x)
      let regs ← set_register regs 0xF 1
      pure { m with regs := regs }
    else do
      let regs ← set_register m.regs vx ((y + 256 - x) % 256)
      let regs ← set_register regs 0xF 0
      pure { m with regs := regs }
  | OpCodes.LeftShift vx _ => do
    let v ← get_register m.regs vx
    let vf := (v >>> 7) &&& 1
    let regs ← set_register m.regs vx ((v <<< 1) % 256)
    let regs ← set_register regs 0xF vf
    pure { m with regs := regs }
  | OpCodes.RightShift vx _ => do
    let v ← get_register m.regs vx
    let vf := v &&& 1
    let regs ← set_register m.regs vx (v >>> 1)
    let regs ← set_register regs 0xF vf
    pure { m with regs := regs }
  | OpCodes.Random vx nn => do
    let ransuu := rnd % (nn + 1)
    let regs ← set_register m.regs vx (nn &&& ransuu)
    pure { m with regs := regs }
  | OpCodes.JumpWithOffset addr => do
    let v0 ← get_register m.regs 0
    pure { m with pc := addr + v0 }
  | OpCodes.AddToIndex vx => do
    let v ← get_register m.regs vx
    pure { m with index := m.index + v }
  | OpCodes.SkipEqualConstant vx nn => do
    let v ← get_register m.regs vx
    if v = nn then increment_pc m else pure m
  | OpCodes.SkipNotEqualConstant vx nn => do
    let v ← get_register m.regs vx
    if v ≠ nn then increment_pc m else pure m
  | OpCodes.SkipEqualRegister vx vy => do
    let a ← get_register m.regs vx
    let b ← get_register m.regs vy
    if a = b then increment_pc m else pure m
  | OpCodes.SkipNotEqualRegister vx vy => do
    let a ← get_register m.regs vx
    let b ← get_register m.regs vy
    if a ≠ b then increment_pc m else pure m
  | OpCodes.PointChar vx => do
    let c ← get_register m.regs vx
    -- `0x50 + char * 5` is u8 arithmetic: overflow is a debug panic
    if c * 5 ≤ 255 ∧ 0x50 + c * 5 ≤ 255 then pure { m with index := 0x50 + c * 5 }
    else none
  | OpCodes.ToDecimal vx => do
    let v ← get_register m.regs vx
    write_digits m 0 (decimal_digits_rev v).reverse
  | OpCodes.SkipIfPressed vx => do
    let v ← get_register m.regs vx
    let key ← KEYS[v]?
    -- `self.mem.pc.increment()` is the raw `ProgramCounter::increment`
    -- (its boolean result is discarded; no `process::exit`)
    if pressed.contains key then pure { m with pc := m.pc + 2 } else pure m
  | OpCodes.SkipIfNotPressed vx => do
    let v ← get_register m.regs vx
    let key ← KEYS[v]?
    if ¬ pressed.contains key then pure { m with pc := m.pc + 2 } else pure m
  | OpCodes.CopyDelayToRegister vx => do
    let regs ← set_register m.regs vx m.delay_count
    pure { m with regs := regs }
  | OpCodes.CopyRegisterToDelay vx => do
    let v ← get_register m.regs vx
    pure { m with delay_count := v }
  | OpCodes.CopyRegisterToSound vx => do
    let v ← get_register m.regs vx
    pure { m with sound_count := v }
  | OpCodes.GetKey vx =>
    match pressed with
    | [] => decrement_pc m
    | k :: _ =>
      match key_to_u8 k with
      | some key => do
        let regs ← set_register m.regs vx key
        pure { m with regs := regs }
      | none => some m
  | OpCodes.LoadRegisterFromMemory vx => load_regs m (vx + 1) 0
  | OpCodes.StoreRegisterToMemory vx => store_regs m (vx + 1) 0
  | OpCodes.Unimplemented => some m

/-- One full cycle of the main loop when `can_execute()` fires:
`fetch_decode` (`next_instruction` + `decode_raw`) then `execute_ins`. -/
def step (pressed : List PhysKey) (rnd : Nat) (m : Machine) : Option Machine := do
  let (ins, m') ← next_instruction m
  let op ← decode_raw ins
  execute_ins pressed rnd m' op

/-! ## Specification-side apparatus used to state theorems -/

/-- The XOR mask contributed at linear framebuffer index `idx` by the 8
columns `j ..< j + k` of sprite row `row` drawn at column `x`, row `ny`. -/
def col_mask (x ny row j k idx : Nat) : Nat :=
  let base := ny * 64 + x
  if base + j ≤ idx ∧ idx < base + j + k then (row >>> (7 - (idx - base))) &&& 1
  else 0

/-- The XOR mask contributed at linear framebuffer index `idx` by a whole
sprite drawn at column `x` starting at row `ny`. -/
def rows_mask (x : Nat) : Nat → List Nat → Nat → Nat
  | _, [], _ => 0
  | ny, row :: rest, idx => col_mask x ny row 0 8 idx ^^^ rows_mask x (ny + 1) rest idx

/-! # Theorems

General-purpose lemmas first, then one theorem (plus witness or
counterexample) per claim. -/

theorem and_shift (code m s : Nat) : (code &&& (m <<< s)) >>> s = (code >>> s) &&& m := by
  apply Nat.eq_of_testBit_eq
  intro i
  simp [Nat.testBit_and, Nat.testBit_shiftRight, Nat.testBit_shiftLeft]

theorem nth_1_1 (code : Nat) : nth_m_digits code 1 1 = code / 4096 % 16 := by
  have h : nth_m_digits code 1 1 = (code &&& (15 <<< 12)) >>> 12 := rfl
  rw [h, and_shift, Nat.shiftRight_eq_div_pow]
  have h15 : (15 : Nat) = 2 ^ 4 - 1 := rfl
  rw [h15, Nat.and_pow_two_sub_one_eq_mod]
  try norm_num

theorem nth_2_1 (code : Nat) : nth_m_digits code 2 1 = code / 256 % 16 := by
  have h : nth_m_digits code 2 1 = (code &&& (15 <<< 8)) >>> 8 := rfl
  rw [h, and_shift, Nat.shiftRight_eq_div_pow]
  have h15 : (15 : Nat) = 2 ^ 4 - 1 := rfl
  rw [h15, Nat.and_pow_two_sub_one_eq_mod]
  try norm_num

theorem nth_3_1 (code : Nat) : nth_m_digits code 3 1 = code / 16 % 16 := by
  have h : nth_m_digits code 3 1 = (code &&& (15 <<< 4)) >>> 4 := rfl
  rw [h, and_shift, Nat.shiftRight_eq_div_pow]
  have h15 : (15 : Nat) = 2 ^ 4 - 1 := rfl
  rw [h15, Nat.and_pow_two_sub_one_eq_mod]
  try norm_num

theorem nth_4_1 (code : Nat) : nth_m_digits code 4 1 = code % 16 := by
  have h : nth_m_digits code 4 1 = (code &&& (15 <<< 0)) >>> 0 := rfl
  rw [h, and_shift, Nat.shiftRight_eq_div_pow]
  have h15 : (15 : Nat) = 2 ^ 4 - 1 := rfl
  rw [h15, Nat.and_pow_two_sub_one_eq_mod]
  try norm_num

theorem nth_2_3 (code : Nat) : nth_m_digits code 2 3 = code % 4096 := by
  have h : nth_m_digits code 2 3 = (code &&& (4095 <<< 0)) >>> 0 := rfl
  rw [h, and_shift, Nat.shiftRight_eq_div_pow]
  have h15 : (4095 : Nat) = 2 ^ 12 - 1 := rfl
  rw [h15, Nat.and_pow_two_sub_one_eq_mod]
  try norm_num

theorem nth_3_2 (code : Nat) : nth_m_digits code 3 2 = code % 256 := by
  have h : nth_m_digits code 3 2 = (code &&& (255 <<< 0)) >>> 0 := rfl
  rw [h, and_shift, Nat.shiftRight_eq_div_pow]
  have h15 : (255 : Nat) = 2 ^ 8 - 1 := rfl
  rw [h15, Nat.and_pow_two_sub_one_eq_mod]
  try norm_num

/-- The spec's decode table examples (section 8). -/
theorem decode_table_examples :
    decode_raw 0x00E0 = some OpCodes.ClearScreen ∧
    decode_raw 0x00EE = some OpCodes.PopSubroutine ∧
    decode_raw 0x1ABC = some (OpCodes.Jump 0xABC) ∧
    decode_raw 0x6A07 = some (OpCodes.SetRegister 0xA 0x07) ∧
    decode_raw 0x8014 = some (OpCodes.Add 0 1) := by
  refine ⟨by decide, by decide, by decide, by decide, by decide⟩

/-- The spec's nibble-extraction examples on 0x4CEE (section 8). -/
theorem nth_m_digits_examples :
    nth_m_digits 0x4CEE 1 1 = 0x4 ∧ nth_m_digits 0x4CEE 2 1 = 0xC ∧
    nth_m_digits 0x4CEE 3 1 = 0xE ∧ nth_m_digits 0x4CEE 1 2 = 0x4C ∧
    nth_m_digits 0x4CEE 2 2 = 0xCE := by
  refine ⟨by decide, by decide, by decide, by decide, by decide⟩

set_option maxHeartbeats 3200000 in
/-- Claim C4, corrected.  Decoding is total on all 65536 16-bit values and
never fails: every bit pattern decodes to some opcode.  Patterns with no
defined meaning in families 0x0 (other than 0x00E0/0x00EE), 0x8 (undefined
low nibble), 0xE and 0xF (undefined low byte) decode to the dedicated
`Unimplemented` sentinel.  However — against the claim as stated — the
0x5 and 0x9 families ignore their lowest nibble entirely: `0x5XYN`
decodes to `SkipEqualRegister X Y` and `0x9XYN` to
`SkipNotEqualRegister X Y` for EVERY `N`, including `N ≠ 0`, never to the
sentinel. -/
theorem C4_decode_total_sentinel :
    (∀ ins : Nat, ins < 65536 → (decode_raw ins).isSome) ∧
    (∀ r : Nat, r < 4096 → r ≠ 0x00E0 → r ≠ 0x00EE →
      decode_raw r = some OpCodes.Unimplemented) ∧
    (∀ x y t : Nat, x < 16 → y < 16 → t < 16 →
      t ≠ 0 → t ≠ 1 → t ≠ 2 → t ≠ 3 → t ≠ 4 → t ≠ 5 → t ≠ 6 → t ≠ 7 → t ≠ 0xE →
      decode_raw (0x8000 + x * 256 + y * 16 + t) = some OpCodes.Unimplemented) ∧
    (∀ x t : Nat, x < 16 → t < 256 → t ≠ 0x9E → t ≠ 0xA1 →
      decode_raw (0xE000 + x * 256 + t) = some OpCodes.Unimplemented) ∧
    (∀ x t : Nat, x < 16 → t < 256 → t ≠ 0x07 → t ≠ 0x0A → t ≠ 0x15 → t ≠ 0x18 →
      t ≠ 0x1E → t ≠ 0x29 → t ≠ 0x33 → t ≠ 0x55 → t ≠ 0x65 →
      decode_raw (0xF000 + x * 256 + t) = some OpCodes.Unimplemented) ∧
    (∀ x y t : Nat, x < 16 → y < 16 → t < 16 →
      decode_raw (0x5000 + x * 256 + y * 16 + t) = some (OpCodes.SkipEqualRegister x y)) ∧
    (∀ x y t : Nat, x < 16 → y < 16 → t < 16 →
      decode_raw (0x9000 + x * 256 + y * 16 + t) = some (OpCodes.SkipNotEqualRegister x y)) := by
  refine ⟨?_, ?_, ?_, ?_, ?_, ?_, ?_⟩
  · intro ins _
    unfold decode_raw start_identifier next_u4 next_register next_address next_u8
    norm_num
    repeat' split
    all_goals rfl
  · intro r hr h1 h2
    have h0 : nth_m_digits r 1 1 = 0 := by rw [nth_1_1]; omega
    simp [decode_raw, start_identifier, h0, h1, h2]
  · intro x y t hx hy ht h0 h1 h2 h3 h4 h5 h6 h7 hE
    have g1 : nth_m_digits (0x8000 + x * 256 + y * 16 + t) 1 1 = 8 := by rw [nth_1_1]; omega
    have g2 : nth_m_digits (0x8000 + x * 256 + y * 16 + t) 2 1 = x := by rw [nth_2_1]; omega
    have g3 : nth_m_digits (0x8000 + x * 256 + y * 16 + t) 3 1 = y := by rw [nth_3_1]; omega
    have g4 : nth_m_digits (0x8000 + x * 256 + y * 16 + t) 4 1 = t := by rw [nth_4_1]; omega
    simp [decode_raw, start_identifier, next_u4, next_register, g1, g2, g3, g4]
  · intro x t hx ht h1 h2
    have g1 : nth_m_digits (0xE000 + x * 256 + t) 1 1 = 14 := by rw [nth_1_1]; omega
    have g2 : nth_m_digits (0xE000 + x * 256 + t) 2 1 = x := by rw [nth_2_1]; omega
    have g3 : nth_m_digits (0xE000 + x * 256 + t) 3 2 = t := by rw [nth_3_2]; omega
    simp [decode_raw, start_identifier, next_register, next_u8, g1, g2, g3]
  · intro x t hx ht h1 h2 h3 h4 h5 h6 h7 h8 h9
    have g1 : nth_m_digits (0xF000 + x * 256 + t) 1 1 = 15 := by rw [nth_1_1]; omega
    have g2 : nth_m_digits (0xF000 + x * 256 + t) 2 1 = x := by rw [nth_2_1]; omega
    have g3 : nth_m_digits (0xF000 + x * 256 + t) 3 2 = t := by rw [nth_3_2]; omega
    simp [decode_raw, start_identifier, next_register, next_u8, g1, g2, g3]
  · intro x y t hx hy ht
    have g1 : nth_m_digits (0x5000 + x * 256 + y * 16 + t) 1 1 = 5 := by rw [nth_1_1]; omega
    have g2 : nth_m_digits (0x5000 + x * 256 + y * 16 + t) 2 1 = x := by rw [nth_2_1]; omega
    have g3 : nth_m_digits (0x5000 + x * 256 + y * 16 + t) 3 1 = y := by rw [nth_3_1]; omega
    simp [decode_raw, start_identifier, next_register, g1, g2, g3]
  · intro x y t hx hy ht
    have g1 : nth_m_digits (0x9000 + x * 256 + y * 16 + t) 1 1 = 9 := by rw [nth_1_1]; omega
    have g2 : nth_m_digits (0x9000 + x * 256 + y * 16 + t) 2 1 = x := by rw [nth_2_1]; omega
    have g3 : nth_m_digits (0x9000 + x * 256 + y * 16 + t) 3 1 = y := by rw [nth_3_1]; omega
    simp [decode_raw, start_identifier, next_register, g1, g2, g3]

/-- Claim C4, counterexample to the claim as stated: `0x5123` (a 0x5-family
value with low nibble 3 ≠ 0) decodes to `SkipEqualRegister 1 2`, not to the
`Unimplemented` sentinel; likewise `0x9AB7` decodes to
`SkipNotEqualRegister 0xA 0xB`. -/
theorem C4_counterexample :
    decode_raw 0x5123 = some (OpCodes.SkipEqualRegister 1 2) ∧
    decode_raw 0x5123 ≠ some OpCodes.Unimplemented ∧
    decode_raw 0x9AB7 = some (OpCodes.SkipNotEqualRegister 0xA 0xB) := by
  refine ⟨by decide, by decide, by decide⟩

/-- Witness for `C4_decode_total_sentinel` at concrete inputs. -/
theorem C4_witness :
    (decode_raw 0x8AB9).isSome ∧ decode_raw 0x00FF = some OpCodes.Unimplemented ∧
    decode_raw 0x8AB9 = some OpCodes.Unimplemented ∧
    decode_raw 0x5430 = some (OpCodes.SkipEqualRegister 4 3) := by
  refine ⟨C4_decode_total_sentinel.1 0x8AB9 (by norm_num), ?_, ?_, ?_⟩
  · exact C4_decode_total_sentinel.2.1 0xFF (by norm_num) (by norm_num) (by norm_num)
  · exact C4_decode_total_sentinel.2.2.1 0xA 0xB 9 (by norm_num) (by norm_num)
      (by norm_num) (by norm_num) (by norm_num) (by norm_num) (by norm_num)
      (by norm_num) (by norm_num) (by norm_num) (by norm_num) (by norm_num)
  · exact C4_decode_total_sentinel.2.2.2.2.2.1 4 3 0 (by norm_num) (by norm_num)
      (by norm_num)

theorem write_range_out (vals : List Nat) :
    ∀ bytes s a, (a < s ∨ s + vals.length ≤ a) → write_range bytes s vals a = bytes a := by
  induction vals with
  | nil => intro bytes s a _; rfl
  | cons v rest ih =>
    intro bytes s a h
    simp only [List.length_cons] at h
    simp only [write_range]
    rw [ih (upd bytes s v) (s + 1) a (by omega)]
    simp only [upd]
    rw [if_neg (by omega)]

/-- Claim C1: the claim is right and the code is wrong (code_bug).  For a
3897-byte program (0x200 + 3897 = 4409 > 4096) `load_rom` reports nothing:
it returns normally having silently skipped the program write (address
0x200 and every other program address still hold 0; only the font was
written), while still setting `pc_end = 0x200 + 3897` — so startup
continues into execution of empty memory instead of aborting.  For
contrast, a 1-byte program is written at 0x200 as specified. -/
theorem C1_load_rom_silent_skip :
    ((init_machine (List.replicate 3897 0xAB)).bytes 0x200 = 0 ∧
      (init_machine (List.replicate 3897 0xAB)).bytes 0xFFF = 0 ∧
      (init_machine (List.replicate 3897 0xAB)).pc_end = 0x200 + 3897) ∧
    (init_machine [0xAB]).bytes 0x200 = 0xAB := by
  have hlen : (List.replicate 3897 (0xAB : Nat)).length = 3897 := List.length_replicate 3897 0xAB
  have hfont : DEFAULT_FONT.length = 80 := by norm_num [DEFAULT_FONT]
  constructor
  · refine ⟨?_, ?_, ?_⟩
    · show (load_rom new_machine (List.replicate 3897 0xAB)).bytes 0x200 = 0
      simp only [load_rom, hlen]
      rw [if_neg (by norm_num)]
      show write_range new_machine.bytes 0x50 DEFAULT_FONT 0x200 = 0
      rw [write_range_out DEFAULT_FONT _ 0x50 0x200 (by rw [hfont]; norm_num)]
      rfl
    · show (load_rom new_machine (List.replicate 3897 0xAB)).bytes 0xFFF = 0
      simp only [load_rom, hlen]
      rw [if_neg (by norm_num)]
      show write_range new_machine.bytes 0x50 DEFAULT_FONT 0xFFF = 0
      rw [write_range_out DEFAULT_FONT _ 0x50 0xFFF (by rw [hfont]; norm_num)]
      rfl
    · show (load_rom new_machine (List.replicate 3897 0xAB)).pc_end = 0x200 + 3897
      simp only [load_rom, hlen]
      rw [if_neg (by norm_num)]
      rfl
  · rfl

/-- Claim C5, corrected.  A single `Timer::sync` call (the `Timer` the
emulator actually uses, from `main.rs`/`emulator.rs`) reports `false` and
stays put at count 0; reports `false` and leaves the count unchanged when
the elapsed time is at most 16 ms (`1000/60` in integer division, so the
threshold is elapsed > 16 ms, not ≥ 16.67 ms); and otherwise decrements by
`min count (elapsed_ms / 16)` — a catch-up of possibly MORE than one tick
per call, clamped at 0 — and reports `true`.  The count never goes below 0
and never increases. -/
theorem C5_timer_sync_spec (count elapsed_ms : Nat) :
    (count = 0 → timer_sync count elapsed_ms = (0, false)) ∧
    (count ≠ 0 → elapsed_ms ≤ 16 → timer_sync count elapsed_ms = (count, false)) ∧
    (count ≠ 0 → 16 < elapsed_ms →
      timer_sync count elapsed_ms = (count - min count (elapsed_ms / 16), true)) ∧
    (timer_sync count elapsed_ms).1 ≤ count := by
  have h60 : (1000 : Nat) / 60 = 16 := by norm_num
  refine ⟨?_, ?_, ?_, ?_⟩
  · intro h; subst h; rfl
  · intro h hle
    simp only [timer_sync, h60]
    rw [if_neg h, if_neg (by omega)]
  · intro h hlt
    simp only [timer_sync, h60]
    rw [if_neg h, if_pos hlt]
    split
    · next hc =>
      have hz : count - min count (elapsed_ms / 16) = 0 := by omega
      rw [hz]
    · next hc =>
      have hz : count - elapsed_ms / 16 = count - min count (elapsed_ms / 16) := by omega
      rw [hz]
  · simp only [timer_sync, h60]
    repeat' split
    all_goals simp

/-- Claim C5, counterexample to the claim as stated: at count 5 with 34 ms
elapsed, one `sync` call decrements by 2 (to 3), not by exactly 1 (to 4). -/
theorem C5_counterexample :
    timer_sync 5 34 = (3, true) ∧ timer_sync 5 34 ≠ (4, true) := by
  refine ⟨by decide, by decide⟩

/-- Witness for `C5_timer_sync_spec` at concrete inputs. -/
theorem C5_witness :
    timer_sync 0 100 = (0, false) ∧ timer_sync 3 16 = (3, false) ∧
    timer_sync 3 20 = (2, true) := by
  refine ⟨(C5_timer_sync_spec 0 100).1 rfl, (C5_timer_sync_spec 3 16).2.1 (by decide) (by decide), ?_⟩
  have h := (C5_timer_sync_spec 3 20).2.2.1 (by decide) (by decide)
  simpa using h

/-- Claim C3: the claim is right and the code is wrong (code_bug).
`ToDecimal` writes only the significant decimal digits of the value
(most-significant first) to `index, index+1, ...` — it does NOT zero-pad to
three digits.  With `regs[2] = 7` and `index = 0x300` it writes the single
byte 7 at 0x300 and leaves 0x301/0x302 untouched (0x301 keeps its prior
value 9), instead of the claimed `[0, 0, 7]`; with value 0 it writes
nothing at all (0x300 keeps its prior value 5) instead of `[0, 0, 0]`;
only for three-digit values such as 255 does it produce the claimed
`[2, 5, 5]`. -/
theorem C3_to_decimal_failing :
    ((execute_ins [] 0
        { new_machine with regs := upd new_machine.regs 2 7, index := 0x300,
                           bytes := upd new_machine.bytes 0x301 9 }
        (OpCodes.ToDecimal 2)).map
      (fun m => (m.bytes 0x300, m.bytes 0x301, m.bytes 0x302)) = some (7, 9, 0)) ∧
    ((execute_ins [] 0
        { new_machine with regs := upd new_machine.regs 2 0, index := 0x300,
                           bytes := upd new_machine.bytes 0x300 5 }
        (OpCodes.ToDecimal 2)).map
      (fun m => (m.bytes 0x300, m.bytes 0x301, m.bytes 0x302)) = some (5, 0, 0)) ∧
    ((execute_ins [] 0
        { new_machine with regs := upd new_machine.regs 2 255, index := 0x300 }
        (OpCodes.ToDecimal 2)).map
      (fun m => (m.bytes 0x300, m.bytes 0x301, m.bytes 0x302)) = some (2, 5, 5)) := by
  have h0 : decimal_digits_rev 0 = [] := by
    rw [decimal_digits_rev]
    simp
  have h7 : decimal_digits_rev 7 = [7] := by
    rw [decimal_digits_rev]
    norm_num
    rw [decimal_digits_rev]
    simp
  have h255 : decimal_digits_rev 255 = [5, 5, 2] := by
    rw [decimal_digits_rev]
    norm_num
    rw [decimal_digits_rev]
    norm_num
    rw [decimal_digits_rev]
    norm_num
    rw [decimal_digits_rev]
    simp
  refine ⟨?_, ?_, ?_⟩
  · simp [execute_ins, get_register, upd, h7, write_digits, mem_set, new_machine]
  · simp [execute_ins, get_register, upd, h0, write_digits, mem_set, new_machine]
  · simp [execute_ins, get_register, upd, h255, write_digits, mem_set, new_machine]

/-- Claim C6, counterexample to the claim as stated: from the freshly
loaded 2-byte program `0x1201` (`Jump 0x201`), one fetch-decode-execute
cycle reaches a machine state whose program counter 0x201 is odd; from the
program `0x1100` (`Jump 0x100`), one cycle reaches the program counter
0x100, below 0x200 and so outside `[0x200, loadEnd)`. -/
theorem C6_counterexample :
    ((step [] 0 (init_machine [0x12, 0x01])).map Machine.pc = some 0x201 ∧
      0x201 % 2 = 1) ∧
    ((step [] 0 (init_machine [0x11, 0x00])).map Machine.pc = some 0x100 ∧
      0x100 < 0x200) := by
  refine ⟨⟨rfl, rfl⟩, rfl, by norm_num⟩

/-- Claim C6, corrected.  What does hold: a freshly loaded machine starts at
the even program counter 0x200 with `loadEnd = 0x200 + programLength`
computed once at load time; every successful fetch advances the program
counter by exactly 2 (checking `pc ≤ loadEnd` afterwards, with termination
otherwise); but `Jump addr` sets the program counter to its operand
unconditionally, so a jump can move it to an odd address or outside
`[0x200, loadEnd)` (see the counterexample), and the claimed invariant does
not hold for all reachable states. -/
theorem C6_pc_structure :
    (∀ rom : List Nat, (init_machine rom).pc = 0x200 ∧ (init_machine rom).pc % 2 = 0 ∧
      (init_machine rom).pc_end = 0x200 + rom.length) ∧
    (∀ m ins m', next_instruction m = some (ins, m') →
      m'.pc = m.pc + 2 ∧ m'.pc ≤ m.pc_end ∧ m'.regs = m.regs ∧ m'.bytes = m.bytes) ∧
    (∀ pressed rnd m addr,
      execute_ins pressed rnd m (OpCodes.Jump addr) = some { m with pc := addr }) := by
  refine ⟨?_, ?_, ?_⟩
  · intro rom
    refine ⟨?_, ?_, ?_⟩ <;>
      · simp only [init_machine, load_rom, new_machine]
        split <;> first | rfl | simp
  · intro m ins m' h
    simp only [next_instruction, mem_get, increment_pc, bind, Option.bind] at h
    split_ifs at h with h1 h2 h3
    · simp only [Option.pure_def, Option.some.injEq, Prod.mk.injEq] at h
      obtain ⟨-, h⟩ := h
      subst h
      exact ⟨rfl, h3, rfl, rfl⟩
  · intro pressed rnd m addr
    rfl

/-- Witness for `C6_pc_structure` at a concrete machine. -/
theorem C6_witness :
    next_instruction (init_machine [0x00, 0x00]) =
      some (0, { init_machine [0x00, 0x00] with pc := 0x202 }) ∧
    ({ init_machine [0x00, 0x00] with pc := 0x202 } : Machine).pc =
      (init_machine [0x00, 0x00]).pc + 2 := by
  refine ⟨rfl, (C6_pc_structure.2.1 (init_machine [0x00, 0x00]) 0
    { init_machine [0x00, 0x00] with pc := 0x202 } rfl).1⟩

/-- Claim C7, confirmed.  `SubtractForward vx vy` reads both operands before
any write, stores `(vx_value - vy_value) mod 256` in `vx` (wrapping on
borrow), then writes the flag register 0xF with 1 if `vx_value ≥ vy_value`
(no borrow) and 0 otherwise, computed from the PRE-operation values.
Because the flag is written after the result, when `vx = 0xF` the flag
value is what remains in `VF`; for `vx ≠ 0xF` the result lands in `vx` and
the flag in `VF`; all other registers are untouched. -/
theorem C7_subtract_forward (m : Machine) (pressed : List PhysKey) (rnd : Nat)
    (vx vy : Nat) (hx : vx < 16) (hy : vy < 16)
    (hbx : m.regs vx < 256) (hby : m.regs vy < 256) :
    ∃ m', execute_ins pressed rnd m (OpCodes.SubtractForward vx vy) = some m' ∧
      m'.regs 0xF = (if m.regs vy ≤ m.regs vx then 1 else 0) ∧
      (vx ≠ 0xF → m'.regs vx = (m.regs vx + 256 - m.regs vy) % 256) ∧
      (∀ i, i ≠ vx → i ≠ 0xF → m'.regs i = m.regs i) ∧
      m'.pc = m.pc ∧ m'.bytes = m.bytes ∧ m'.index = m.index ∧ m'.fb = m.fb := by
  by_cases hc : m.regs vy ≤ m.regs vx
  · refine ⟨{ m with regs := upd (upd m.regs vx (m.regs vx - m.regs vy)) 0xF 1 },
      ?_, ?_, ?_, ?_, rfl, rfl, rfl, rfl⟩
    · simp [execute_ins, get_register, set_register, hx, hy, hc]
    · simp [upd, hc]
    · intro hne
      simp only [upd]
      rw [if_neg (by omega)]
      simp only [if_true, eq_self_iff_true, if_pos]
      omega
    · intro i hi hif
      simp only [upd]
      rw [if_neg (by omega), if_neg (by omega)]
  · refine ⟨{ m with regs := upd (upd m.regs vx ((m.regs vx + 256 - m.regs vy) % 256)) 0xF 0 },
      ?_, ?_, ?_, ?_, rfl, rfl, rfl, rfl⟩
    · simp [execute_ins, get_register, set_register, hx, hy, hc]
    · simp [upd, hc]
    · intro hne
      simp only [upd]
      rw [if_neg (by omega)]
      simp
    · intro i hi hif
      simp only [upd]
      rw [if_neg (by omega), if_neg (by omega)]

/-- Witness for `C7_subtract_forward`: the spec's own example
`SubtractForward(dest value 0x01, source value 0x02)` yields result `0xFF`
and flag `0`. -/
theorem C7_witness :
    ∃ m', execute_ins [] 0
        { new_machine with regs := upd (upd new_machine.regs 0 0x01) 1 0x02 }
        (OpCodes.SubtractForward 0 1) = some m' ∧
      m'.regs 0xF = 0 ∧ m'.regs 0 = 0xFF := by
  obtain ⟨m', hexec, hflag, hvx, hrest⟩ :=
    C7_subtract_forward
      { new_machine with regs := upd (upd new_machine.regs 0 0x01) 1 0x02 }
      [] 0 0 1 (by norm_num) (by norm_num) (by simp [upd, new_machine]) (by simp [upd, new_machine])
  refine ⟨m', hexec, ?_, ?_⟩
  · rw [hflag]
    simp [upd, new_machine]
  · rw [hvx (by norm_num)]
    simp [upd, new_machine]

theorem store_regs_spec (k : Nat) : ∀ (reg : Nat) (m : Machine), reg + k ≤ 16 →
    m.index + reg + k ≤ 4096 →
    ∃ m', store_regs m k reg = some m' ∧
      m'.regs = m.regs ∧ m'.index = m.index ∧ m'.pc = m.pc ∧ m'.pc_end = m.pc_end ∧
      m'.stack = m.stack ∧ m'.fb = m.fb ∧
      m'.delay_count = m.delay_count ∧ m'.sound_count = m.sound_count ∧
      (∀ a, m'.bytes a =
        if m.index + reg ≤ a ∧ a < m.index + reg + k then m.regs (a - m.index)
        else m.bytes a) := by
  induction k with
  | zero =>
    intro reg m _ _
    refine ⟨m, rfl, rfl, rfl, rfl, rfl, rfl, rfl, rfl, rfl, ?_⟩
    intro a
    rw [if_neg (by omega)]
  | succ k ih =>
    intro reg m hreg hmem
    have hlt : reg < 16 := by omega
    have haddr : m.index + reg < 4096 := by omega
    have hstep : store_regs m (k + 1) reg =
        store_regs { m with bytes := upd m.bytes (m.index + reg) (m.regs reg) } k (reg + 1) := by
      simp only [store_regs, get_register, mem_set, bind, Option.bind]
      simp [hlt, haddr]
    obtain ⟨m', hrun, hregs, hidx, hpc, hpe, hst, hfb, hd, hs, hbytes⟩ :=
      ih (reg + 1) { m with bytes := upd m.bytes (m.index + reg) (m.regs reg) }
        (by omega) (by simp; omega)
    refine ⟨m', by rw [hstep]; exact hrun, hregs, hidx, hpc, hpe, hst, hfb, hd, hs, ?_⟩
    intro a
    rw [hbytes a]
    simp only [upd]
    by_cases h1 : m.index + (reg + 1) ≤ a ∧ a < m.index + (reg + 1) + k
    · rw [if_pos (by simpa using h1), if_pos (by omega)]
    · rw [if_neg (by simpa using h1)]
      by_cases h2 : a = m.index + reg
      · rw [if_pos h2, if_pos (by omega)]
        congr 1
        omega
      · rw [if_neg h2, if_neg (by omega)]

theorem load_regs_spec (k : Nat) : ∀ (reg : Nat) (m : Machine), reg + k ≤ 16 →
    m.index + reg + k ≤ 4096 →
    ∃ m', load_regs m k reg = some m' ∧
      m'.bytes = m.bytes ∧ m'.index = m.index ∧ m'.pc = m.pc ∧ m'.pc_end = m.pc_end ∧
      m'.stack = m.stack ∧ m'.fb = m.fb ∧ m'.delay_count = m.delay_count ∧
      m'.sound_count = m.sound_count ∧
      (∀ i, m'.regs i =
        if reg ≤ i ∧ i < reg + k then m.bytes (m.index + i) else m.regs i) := by
  induction k with
  | zero =>
    intro reg m _ _
    refine ⟨m, rfl, rfl, rfl, rfl, rfl, rfl, rfl, rfl, rfl, ?_⟩
    intro i
    rw [if_neg (by omega)]
  | succ k ih =>
    intro reg m hreg hmem
    have hlt : reg < 16 := by omega
    have haddr : m.index + reg < 4096 := by omega
    have hstep : load_regs m (k + 1) reg =
        load_regs { m with regs := upd m.regs reg (m.bytes (m.index + reg)) } k (reg + 1) := by
      simp only [load_regs, mem_get, set_register, bind, Option.bind]
      simp [hlt, haddr]
    obtain ⟨m', hrun, hbytes, hidx, hpc, hpe, hst, hfb, hd, hs, hregs⟩ :=
      ih (reg + 1) { m with regs := upd m.regs reg (m.bytes (m.index + reg)) }
        (by omega) (by simp; omega)
    refine ⟨m', by rw [hstep]; exact hrun, hbytes, hidx, hpc, hpe, hst, hfb, hd, hs, ?_⟩
    intro i
    rw [hregs i]
    simp only [upd]
    by_cases h1 : reg + 1 ≤ i ∧ i < reg + 1 + k
    · rw [if_pos h1, if_pos (by omega)]
    · rw [if_neg h1]
      by_cases h2 : i = reg
      · rw [if_pos h2, if_pos (by omega), h2]
      · rw [if_neg h2, if_neg (by omega)]

/-- Claim C10, confirmed.  With `index + vx < 4096`,
`StoreRegisterToMemory vx` writes registers `0 ..= vx` to the consecutive
addresses `index ..= index + vx` (leaving every other byte and all
registers unchanged), `LoadRegisterFromMemory vx` then reads them back,
and the composition leaves every register with its original value; neither
operation changes the index register or the program counter. -/
theorem C10_store_load_roundtrip (m : Machine) (pressed : List PhysKey) (rnd : Nat)
    (vx : Nat) (hvx : vx < 16) (hrange : m.index + vx < 4096) :
    ∃ m1 m2,
      execute_ins pressed rnd m (OpCodes.StoreRegisterToMemory vx) = some m1 ∧
      execute_ins pressed rnd m1 (OpCodes.LoadRegisterFromMemory vx) = some m2 ∧
      m1.index = m.index ∧ m2.index = m.index ∧
      m1.regs = m.regs ∧ m2.regs = m.regs ∧
      (∀ r, r ≤ vx → m1.bytes (m.index + r) = m.regs r) ∧
      (∀ a, a < m.index ∨ m.index + vx < a → m1.bytes a = m.bytes a) ∧
      m2.bytes = m1.bytes ∧
      m1.pc = m.pc ∧ m2.pc = m.pc := by
  obtain ⟨m1, hrun1, hregs1, hidx1, hpc1, hpe1, hst1, hfb1, hd1, hs1, hbytes1⟩ :=
    store_regs_spec (vx + 1) 0 m (by omega) (by omega)
  obtain ⟨m2, hrun2, hbytes2, hidx2, hpc2, hpe2, hst2, hfb2, hd2, hs2, hregs2⟩ :=
    load_regs_spec (vx + 1) 0 m1 (by omega) (by rw [hidx1]; omega)
  refine ⟨m1, m2, hrun1, hrun2, hidx1, by rw [hidx2, hidx1], hregs1, ?_, ?_, ?_,
    hbytes2, hpc1, by rw [hpc2, hpc1]⟩
  · funext i
    rw [hregs2 i]
    by_cases h1 : 0 ≤ i ∧ i < 0 + (vx + 1)
    · rw [if_pos h1, hidx1, hbytes1 (m.index + i), if_pos (by omega)]
      have hcc : m.index + i - m.index = i := by omega
      rw [hcc]
    · rw [if_neg h1, hregs1]
  · intro r hr
    rw [hbytes1 (m.index + r), if_pos (by omega)]
    have hcc : m.index + r - m.index = r := by omega
    rw [hcc]
  · intro a ha
    rw [hbytes1 a, if_neg (by omega)]

/-- Witness for `C10_store_load_roundtrip`: registers `V0 = 11, V1 = 22`,
index `0x300`, `vx = 1`. -/
theorem C10_witness :
    ∃ m1 m2,
      execute_ins [] 0
        { new_machine with index := 0x300, regs := upd (upd new_machine.regs 0 11) 1 22 }
        (OpCodes.StoreRegisterToMemory 1) = some m1 ∧
      execute_ins [] 0 m1 (OpCodes.LoadRegisterFromMemory 1) = some m2 ∧
      m1.index = 0x300 ∧ m2.index = 0x300 ∧
      m1.regs = upd (upd new_machine.regs 0 11) 1 22 ∧
      m2.regs = upd (upd new_machine.regs 0 11) 1 22 := by
  obtain ⟨m1, m2, h1, h2, h3, h4, h5, h6, _⟩ :=
    C10_store_load_roundtrip
      { new_machine with index := 0x300, regs := upd (upd new_machine.regs 0 11) 1 22 }
      [] 0 1 (by norm_num) (by decide)
  exact ⟨m1, m2, h1, h2, h3, h4, h5, h6⟩

theorem bit_le_one (row s : Nat) : (row >>> s) &&& 1 ≤ 1 := by
  rw [Nat.and_one_is_mod]
  omega

theorem xor_one_ne (prev : Nat) : prev ≠ prev ^^^ 1 := by
  intro h
  have h2 : prev ^^^ (prev ^^^ 1) = prev ^^^ prev := by rw [← h]
  rw [← Nat.xor_assoc, Nat.xor_self, Nat.zero_xor] at h2
  exact one_ne_zero h2

theorem paint_pixel_spec (x ny j row : Nat) (fb : FrameBuffer) (vf : Bool)
    (hidx : ny * 64 + (x + j) < 2048) :
    ∃ fb' vf', paint_pixel x ny j row (fb, vf) = some (fb', vf') ∧
      fb'.bit_buffer = upd fb.bit_buffer (ny * 64 + (x + j))
        (fb.bit_buffer (ny * 64 + (x + j)) ^^^ ((row >>> (7 - j)) &&& 1)) ∧
      fb'.should_update = fb.should_update ∧
      (vf' = true ↔ vf = true ∨
        ((row >>> (7 - j)) &&& 1 = 1 ∧ fb.bit_buffer (ny * 64 + (x + j)) = 1)) := by
  have hb : (row >>> (7 - j)) &&& 1 ≤ 1 := bit_le_one row (7 - j)
  have hshape : paint_pixel x ny j row (fb, vf) = some ({ fb with
      bit_buffer := upd fb.bit_buffer (ny * 64 + (x + j))
        (fb.bit_buffer (ny * 64 + (x + j)) ^^^ ((row >>> (7 - j)) &&& 1)),
      pixel_buffer :=
        if fb.bit_buffer (ny * 64 + (x + j)) ^^^ ((row >>> (7 - j)) &&& 1) = 0 then
          upd fb.pixel_buffer (ny * 64 + (x + j)) (from_u16_rgb 0 0 0)
        else if fb.bit_buffer (ny * 64 + (x + j)) ^^^ ((row >>> (7 - j)) &&& 1) = 1 then
          upd fb.pixel_buffer (ny * 64 + (x + j)) (from_u16_rgb 0 127 255)
        else fb.pixel_buffer },
    if fb.bit_buffer (ny * 64 + (x + j)) ≠
        fb.bit_buffer (ny * 64 + (x + j)) ^^^ ((row >>> (7 - j)) &&& 1) ∧
        fb.bit_buffer (ny * 64 + (x + j)) ^^^ ((row >>> (7 - j)) &&& 1) = 0
      then true else vf) := by
    simp only [paint_pixel]
    rw [if_pos hidx]
  refine ⟨_, _, hshape, rfl, rfl, ?_⟩
  rcases Nat.lt_or_ge ((row >>> (7 - j)) &&& 1) 1 with h1 | h1
  · have h0 : (row >>> (7 - j)) &&& 1 = 0 := by omega
    rw [h0]
    simp [Nat.xor_zero]
  · have h1' : (row >>> (7 - j)) &&& 1 = 1 := by omega
    rw [h1']
    by_cases hp : fb.bit_buffer (ny * 64 + (x + j)) = 1
    · rw [hp]
      simp [xor_one_ne 1]
    · have hne : fb.bit_buffer (ny * 64 + (x + j)) ^^^ 1 ≠ 0 := by
        intro h
        exact hp (Nat.xor_eq_zero.mp h)
      simp [hne, hp]

theorem col_mask_zero (x ny row j idx : Nat) : col_mask x ny row j 0 idx = 0 := by
  simp only [col_mask]
  rw [if_neg (by omega)]

theorem col_mask_succ (x ny row j k idx : Nat) :
    col_mask x ny row j (k + 1) idx =
      (if idx = ny * 64 + x + j then (row >>> (7 - j)) &&& 1 else 0) ^^^
        col_mask x ny row (j + 1) k idx := by
  simp only [col_mask]
  by_cases h : idx = ny * 64 + x + j
  · rw [if_pos (by omega), if_pos h, if_neg (by omega), Nat.xor_zero]
    have hj : idx - (ny * 64 + x) = j := by omega
    rw [hj]
  · rw [if_neg h, Nat.zero_xor]
    by_cases h2 : ny * 64 + x + (j + 1) ≤ idx ∧ idx < ny * 64 + x + (j + 1) + k
    · rw [if_pos (by omega), if_pos h2]
    · rw [if_neg (by omega), if_neg h2]

theorem paint_cols_spec (x ny row : Nat) :
    ∀ (k j : Nat) (fb : FrameBuffer) (vf : Bool),
      j + k ≤ 8 →
      (∀ t, t < k → ny * 64 + x + j + t < 2048) →
      ∃ fb' vf', paint_cols x ny row k j (fb, vf) = some (fb', vf') ∧
        (∀ idx, fb'.bit_buffer idx = fb.bit_buffer idx ^^^ col_mask x ny row j k idx) ∧
        fb'.should_update = fb.should_update ∧
        (vf' = true ↔ vf = true ∨
          ∃ t, t < k ∧ (row >>> (7 - (j + t))) &&& 1 = 1 ∧
            fb.bit_buffer (ny * 64 + x + j + t) = 1) := by
  intro k
  induction k with
  | zero =>
    intro j fb vf _ _
    refine ⟨fb, vf, rfl, ?_, rfl, by simp⟩
    intro idx
    rw [col_mask_zero, Nat.xor_zero]
  | succ k ih =>
    intro j fb vf hj8 hbnd
    have hidx : ny * 64 + (x + j) < 2048 := by
      have := hbnd 0 (by omega)
      omega
    obtain ⟨fb1, vf1, hrun1, hbit1, hsu1, hvf1⟩ := paint_pixel_spec x ny j row fb vf hidx
    obtain ⟨fb', vf', hrun2, hbit2, hsu2, hvf2⟩ := ih (j + 1) fb1 vf1 (by omega)
      (fun t ht => by have := hbnd (t + 1) (by omega); omega)
    have hfb1at : ∀ a, a ≠ ny * 64 + (x + j) →
        fb1.bit_buffer a = fb.bit_buffer a := by
      intro a ha
      rw [hbit1]
      simp only [upd]
      rw [if_neg ha]
    refine ⟨fb', vf', ?_, ?_, by rw [hsu2, hsu1], ?_⟩
    · show (paint_pixel x ny j row (fb, vf)).bind (paint_cols x ny row k (j + 1)) = _
      rw [hrun1]
      exact hrun2
    · intro idx
      rw [hbit2 idx, col_mask_succ]
      by_cases h : idx = ny * 64 + (x + j)
      · have e : ny * 64 + (x + j) = ny * 64 + x + j := by omega
        rw [hbit1, h, e]
        simp only [upd, eq_self_iff_true, if_true]
        rw [Nat.xor_assoc]
      · have h' : ¬ idx = ny * 64 + x + j := by omega
        rw [hfb1at idx h, if_neg h', Nat.zero_xor]
    · rw [hvf2, hvf1]
      constructor
      · rintro (h | ⟨t, ht, hbit, hfb⟩)
        · rcases h with h | ⟨hbit, hfb⟩
          · exact Or.inl h
          · refine Or.inr ⟨0, by omega, by simpa using hbit, ?_⟩
            have e : ny * 64 + x + j + 0 = ny * 64 + (x + j) := by omega
            rw [e]
            exact hfb
        · refine Or.inr ⟨t + 1, by omega, ?_, ?_⟩
          · have e : j + (t + 1) = j + 1 + t := by omega
            rw [e]
            exact hbit
          · rw [hfb1at (ny * 64 + x + (j + 1) + t) (by omega)] at hfb
            have e : ny * 64 + x + j + (t + 1) = ny * 64 + x + (j + 1) + t := by omega
            rw [e]
            exact hfb
      · rintro (h | ⟨t, ht, hbit, hfb⟩)
        · exact Or.inl (Or.inl h)
        · rcases t with _ | t
          · refine Or.inl (Or.inr ⟨by simpa using hbit, ?_⟩)
            have e : ny * 64 + (x + j) = ny * 64 + x + j + 0 := by omega
            rw [e]
            exact hfb
          · refine Or.inr ⟨t, by omega, ?_, ?_⟩
            · have e : j + 1 + t = j + (t + 1) := by omega
              rw [e]
              exact hbit
            · rw [hfb1at (ny * 64 + x + (j + 1) + t) (by omega)]
              have e : ny * 64 + x + (j + 1) + t = ny * 64 + x + j + (t + 1) := by omega
              rw [e]
              exact hfb

theorem col_mask_out (x ny row j k idx : Nat)
    (h : idx < ny * 64 + x + j ∨ ny * 64 + x + j + k ≤ idx) :
    col_mask x ny row j k idx = 0 := by
  simp only [col_mask]
  rw [if_neg (by omega)]

theorem paint_rows_spec (x : Nat) :
    ∀ (rows : List Nat) (ny : Nat) (fb : FrameBuffer) (vf : Bool),
      (∀ i, i < rows.length → (ny + i) * 64 + x + 8 ≤ 2048) →
      ∃ fb' vf', paint_rows x ny rows (fb, vf) = some (fb', vf') ∧
        (∀ idx, fb'.bit_buffer idx = fb.bit_buffer idx ^^^ rows_mask x ny rows idx) ∧
        fb'.should_update = fb.should_update ∧
        (vf' = true ↔ vf = true ∨
          ∃ i t row_i, rows[i]? = some row_i ∧ t < 8 ∧
            (row_i >>> (7 - t)) &&& 1 = 1 ∧ fb.bit_buffer ((ny + i) * 64 + x + t) = 1) := by
  intro rows
  induction rows with
  | nil =>
    intro ny fb vf _
    refine ⟨fb, vf, rfl, ?_, rfl, by simp⟩
    intro idx
    simp [rows_mask]
  | cons row rest ih =>
    intro ny fb vf hb
    have hb0 : (ny + 0) * 64 + x + 8 ≤ 2048 := hb 0 (by simp)
    obtain ⟨fb1, vf1, hrun1, hbit1, hsu1, hvf1⟩ :=
      paint_cols_spec x ny row 8 0 fb vf (by omega) (fun t ht => by omega)
    obtain ⟨fb', vf', hrun2, hbit2, hsu2, hvf2⟩ :=
      ih (ny + 1) fb1 vf1 (fun i hi => by
        have := hb (i + 1) (by simpa using Nat.succ_lt_succ hi)
        have e : ny + (i + 1) = ny + 1 + i := by omega
        rw [e] at this
        exact this)
    have htrans : ∀ i t, t < 8 →
        fb1.bit_buffer ((ny + 1 + i) * 64 + x + t) =
          fb.bit_buffer ((ny + 1 + i) * 64 + x + t) := by
      intro i t ht
      rw [hbit1, col_mask_out x ny row 0 8 _ (by omega), Nat.xor_zero]
    refine ⟨fb', vf', ?_, ?_, by rw [hsu2, hsu1], ?_⟩
    · show (paint_cols x ny row 8 0 (fb, vf)).bind (paint_rows x (ny + 1) rest) = _
      rw [hrun1]
      exact hrun2
    · intro idx
      rw [hbit2 idx, hbit1 idx]
      simp only [rows_mask]
      rw [Nat.xor_assoc]
    · rw [hvf2, hvf1]
      constructor
      · rintro (h | ⟨i, t, row_i, hget, ht, hbit, hfb⟩)
        · rcases h with h | ⟨t, ht, hbit, hfb⟩
          · exact Or.inl h
          · refine Or.inr ⟨0, t, row, by simp, ht, by simpa using hbit, ?_⟩
            have e : (ny + 0) * 64 + x + t = ny * 64 + x + 0 + t := by omega
            rw [e]
            exact hfb
        · refine Or.inr ⟨i + 1, t, row_i, by simpa using hget, ht, hbit, ?_⟩
          rw [htrans i t ht] at hfb
          have e : (ny + (i + 1)) * 64 + x + t = (ny + 1 + i) * 64 + x + t := by omega
          rw [e]
          exact hfb
      · rintro (h | ⟨i, t, row_i, hget, ht, hbit, hfb⟩)
        · exact Or.inl (Or.inl h)
        · rcases i with _ | i
          · simp only [List.getElem?_cons_zero, Option.some.injEq] at hget
            subst hget
            refine Or.inl (Or.inr ⟨t, ht, by simpa using hbit, ?_⟩)
            have e : ny * 64 + x + 0 + t = (ny + 0) * 64 + x + t := by omega
            rw [e]
            exact hfb
          · refine Or.inr ⟨i, t, row_i, by simpa using hget, ht, hbit, ?_⟩
            rw [htrans i t ht]
            have e : (ny + 1 + i) * 64 + x + t = (ny + (i + 1)) * 64 + x + t := by omega
            rw [e]
            exact hfb

theorem paint_spec (fb : FrameBuffer) (x y : Nat) (sprite : List Nat)
    (hb : ∀ i, i < sprite.length → (y + i) * 64 + x + 8 ≤ 2048) :
    ∃ fb' vf, paint fb x y sprite = some (fb', vf) ∧
      (∀ idx, fb'.bit_buffer idx = fb.bit_buffer idx ^^^ rows_mask x y sprite idx) ∧
      fb'.should_update = true ∧
      (vf = true ↔ ∃ i t row_i, sprite[i]? = some row_i ∧ t < 8 ∧
        (row_i >>> (7 - t)) &&& 1 = 1 ∧ fb.bit_buffer ((y + i) * 64 + x + t) = 1) := by
  obtain ⟨fb', vf, hrun, hbit, hsu, hvf⟩ := paint_rows_spec x sprite y fb false hb
  refine ⟨{ fb' with should_update := true }, vf, ?_, ?_, rfl, ?_⟩
  · simp only [paint, hrun, Option.map]
  · intro idx
    exact hbit idx
  · simpa using hvf

theorem xor_le_one {a b : Nat} (ha : a ≤ 1) (hb : b ≤ 1) : a ^^^ b ≤ 1 := by
  interval_cases a <;> interval_cases b <;> decide

theorem col_mask_le_one (x ny row j k idx : Nat) : col_mask x ny row j k idx ≤ 1 := by
  simp only [col_mask]
  split
  · exact bit_le_one row _
  · omega

theorem rows_mask_low (x : Nat) :
    ∀ (rows : List Nat) (ny idx : Nat), idx < ny * 64 + x →
      rows_mask x ny rows idx = 0 := by
  intro rows
  induction rows with
  | nil => intro ny idx _; rfl
  | cons row rest ih =>
    intro ny idx h
    simp only [rows_mask]
    rw [col_mask_out x ny row 0 8 idx (by omega), ih (ny + 1) idx (by omega), Nat.xor_zero]

theorem rows_mask_le_one (x : Nat) :
    ∀ (rows : List Nat) (ny idx : Nat), rows_mask x ny rows idx ≤ 1 := by
  intro rows
  induction rows with
  | nil => intro ny idx; exact Nat.zero_le 1
  | cons row rest ih =>
    intro ny idx
    simp only [rows_mask]
    exact xor_le_one (col_mask_le_one x ny row 0 8 idx) (ih (ny + 1) idx)

theorem rows_mask_at (x : Nat) :
    ∀ (rows : List Nat) (ny i t row_i : Nat), rows[i]? = some row_i → t < 8 →
      rows_mask x ny rows ((ny + i) * 64 + x + t) = (row_i >>> (7 - t)) &&& 1 := by
  intro rows
  induction rows with
  | nil => intro ny i t row_i hget _; simp at hget
  | cons row rest ih =>
    intro ny i t row_i hget ht
    rcases i with _ | i
    · simp only [List.getElem?_cons_zero, Option.some.injEq] at hget
      subst hget
      simp only [rows_mask]
      simp only [col_mask]
      rw [if_pos (by omega)]
      have e : (ny + 0) * 64 + x + t - (ny * 64 + x) = t := by omega
      rw [e]
      rw [rows_mask_low x rest (ny + 1) _ (by omega), Nat.xor_zero]
    · simp only [List.getElem?_cons_succ] at hget
      simp only [rows_mask]
      rw [col_mask_out x ny row 0 8 _ (by omega)]
      rw [Nat.zero_xor]
      have e : (ny + (i + 1)) * 64 + x + t = (ny + 1 + i) * 64 + x + t := by omega
      rw [e]
      exact ih (ny + 1) i t row_i hget ht

theorem rows_mask_nonzero (x : Nat) :
    ∀ (rows : List Nat) (ny idx : Nat), rows_mask x ny rows idx ≠ 0 →
      ∃ i t row_i, rows[i]? = some row_i ∧ t < 8 ∧
        idx = (ny + i) * 64 + x + t ∧ (row_i >>> (7 - t)) &&& 1 = 1 := by
  intro rows
  induction rows with
  | nil => intro ny idx h; exact absurd rfl h
  | cons row rest ih =>
    intro ny idx h
    simp only [rows_mask] at h
    by_cases hcol : col_mask x ny row 0 8 idx = 0
    · rw [hcol, Nat.zero_xor] at h
      obtain ⟨i, t, row_i, hget, ht, hidx, hbitv⟩ := ih (ny + 1) idx h
      refine ⟨i + 1, t, row_i, by simpa using hget, ht, by omega, hbitv⟩
    · by_cases hcov : ny * 64 + x + 0 ≤ idx ∧ idx < ny * 64 + x + 0 + 8
      · have hval : col_mask x ny row 0 8 idx = (row >>> (7 - (idx - (ny * 64 + x)))) &&& 1 := by
          simp only [col_mask]
          rw [if_pos hcov]
        have hle := bit_le_one row (7 - (idx - (ny * 64 + x)))
        have hone : (row >>> (7 - (idx - (ny * 64 + x)))) &&& 1 = 1 := by
          rw [hval] at hcol
          omega
        refine ⟨0, idx - (ny * 64 + x), row, by simp, by omega, by omega, ?_⟩
        exact hone
      · exfalso
        apply hcol
        simp only [col_mask]
        rw [if_neg hcov]

/-- Claim C8, confirmed.  For a sprite whose 8-column, `height`-row footprint
lies entirely inside the 64x32 grid, painting it twice at the same
coordinates restores the bit grid exactly (double XOR), and the second
paint reports a collision precisely when some cell of the grid goes from
set (1) to unset (0) during its XOR. -/
theorem C8_double_draw (fb : FrameBuffer) (x y : Nat) (sprite : List Nat)
    (hx : x + 8 ≤ 64) (hy : y + sprite.length ≤ 32) :
    ∃ fb1 vf1 fb2 vf2,
      paint fb x y sprite = some (fb1, vf1) ∧
      paint fb1 x y sprite = some (fb2, vf2) ∧
      fb2.bit_buffer = fb.bit_buffer ∧
      (vf2 = true ↔ ∃ idx, fb1.bit_buffer idx = 1 ∧ fb2.bit_buffer idx = 0) := by
  have hb : ∀ i, i < sprite.length → (y + i) * 64 + x + 8 ≤ 2048 := by
    intro i hi
    have h1 : y + i ≤ 31 := by omega
    have h2 : (y + i) * 64 ≤ 31 * 64 := Nat.mul_le_mul_right 64 h1
    omega
  obtain ⟨fb1, vf1, hrun1, hbit1, hsu1, hvf1⟩ := paint_spec fb x y sprite hb
  obtain ⟨fb2, vf2, hrun2, hbit2, hsu2, hvf2⟩ := paint_spec fb1 x y sprite hb
  have hrestore : ∀ idx, fb2.bit_buffer idx = fb.bit_buffer idx := by
    intro idx
    rw [hbit2, hbit1, Nat.xor_assoc, Nat.xor_self, Nat.xor_zero]
  refine ⟨fb1, vf1, fb2, vf2, hrun1, hrun2, funext hrestore, ?_⟩
  rw [hvf2]
  constructor
  · rintro ⟨i, t, row_i, hget, ht, hbitv, hfb⟩
    refine ⟨(y + i) * 64 + x + t, hfb, ?_⟩
    rw [hbit2, rows_mask_at x sprite y i t row_i hget ht, hfb, hbitv]
    exact Nat.xor_self 1
  · rintro ⟨idx, h1, h0⟩
    have hmask : rows_mask x y sprite idx = 1 := by
      have hthis := hbit2 idx
      rw [h0, h1] at hthis
      exact (Nat.xor_eq_zero.mp hthis.symm).symm
    obtain ⟨i, t, row_i, hget, ht, hidx, hbitv⟩ :=
      rows_mask_nonzero x sprite y idx (by rw [hmask]; omega)
    refine ⟨i, t, row_i, hget, ht, hbitv, ?_⟩
    rw [← hidx]
    exact h1

/-- Witness for `C8_double_draw`: a one-row sprite `0x80` at the origin of
an all-zero framebuffer. -/
theorem C8_witness :
    ∃ fb1 vf1 fb2 vf2,
      paint new_framebuffer 0 0 [0x80] = some (fb1, vf1) ∧
      paint fb1 0 0 [0x80] = some (fb2, vf2) ∧
      fb2.bit_buffer = new_framebuffer.bit_buffer ∧
      (vf2 = true ↔ ∃ idx, fb1.bit_buffer idx = 1 ∧ fb2.bit_buffer idx = 0) :=
  C8_double_draw new_framebuffer 0 0 [0x80] (by norm_num) (by norm_num)

/-- Claim C2, counterexample to the claim as stated: painting the one-row
sprite `0x40` (single pixel at column offset 1) at `x = 63, y = 0` on an
all-zero framebuffer sets the linear cell 64 — which is pixel (0, 1), the
first column of the SECOND row — rather than clipping it (cell 63, the
claimed in-range part, stays 0, and no collision is reported).  Painting
`0x80` at `x = 70` sets linear cell 70 — pixel (6, 1) — instead of
plotting at `(70 mod 64, 0) = (6, 0)` (cell 6 stays 0). -/
theorem C2_counterexample :
    (paint new_framebuffer 63 0 [0x40]).map
      (fun st => (st.1.bit_buffer 64, st.1.bit_buffer 63, st.2)) = some (1, 0, false) ∧
    (paint new_framebuffer 70 0 [0x80]).map
      (fun st => (st.1.bit_buffer 70, st.1.bit_buffer 6)) = some (1, 0) := by
  refine ⟨rfl, rfl⟩

theorem read_sprite_spec (m : Machine) :
    ∀ (k addr : Nat), addr + k ≤ 4096 →
      read_sprite m k addr =
        some ((List.range k).map (fun t => m.bytes (addr + t))) := by
  intro k
  induction k with
  | zero => intro addr _; rfl
  | succ k ih =>
    intro addr h
    simp only [read_sprite, mem_get, bind, Option.bind]
    rw [if_pos (by omega), ih (addr + 1) (by omega)]
    simp only [Option.pure_def, Option.some.injEq]
    rw [List.range_succ_eq_map]
    simp only [List.map_cons, List.map_map, Function.comp]
    congr 1
    apply List.map_congr_left
    intro a _
    simp only [Function.comp_apply]
    congr 1
    omega

/-- Claim C2, corrected.  What `Display(rx, ry, height)` actually does:
it reads the `height` sprite rows at `index ..< index + height`, and XORs
bit `j` of row `i` into the single LINEAR framebuffer cell
`(regs[ry] + i) * 64 + (regs[rx] + j)` — no modulo is applied to either
coordinate and nothing is clipped, so pixels past the right edge spill
into the following row (see `C2_counterexample`), and a cell index beyond
the 2048-cell buffer is an out-of-bounds panic.  `VF` is then set to 1
exactly when some touched cell held 1 and its sprite bit is 1.
`rows_mask` is the linear-index XOR mask this produces. -/
theorem C2_display_linear (m : Machine) (pressed : List PhysKey) (rnd : Nat)
    (rx ry h : Nat) (hrx : rx < 16) (hry : ry < 16)
    (hmem : m.index + h ≤ 4096)
    (hb : ∀ i, i < h → (m.regs ry + i) * 64 + m.regs rx + 8 ≤ 2048) :
    ∃ m' vf, execute_ins pressed rnd m (OpCodes.Display rx ry h) = some m' ∧
      (∀ idx, m'.fb.bit_buffer idx =
        m.fb.bit_buffer idx ^^^
          rows_mask (m.regs rx) (m.regs ry)
            ((List.range h).map (fun t => m.bytes (m.index + t))) idx) ∧
      m'.regs = upd m.regs 0xF (if vf then 1 else 0) ∧
      (vf = true ↔ ∃ i t row_i,
        (((List.range h).map (fun t => m.bytes (m.index + t))))[i]? = some row_i ∧ t < 8 ∧
        (row_i >>> (7 - t)) &&& 1 = 1 ∧
        m.fb.bit_buffer ((m.regs ry + i) * 64 + m.regs rx + t) = 1) ∧
      m'.bytes = m.bytes ∧ m'.pc = m.pc ∧ m'.index = m.index := by
  have hsprite := read_sprite_spec m h m.index (by omega)
  obtain ⟨fb', vf, hpaint, hbit, hsu, hvf⟩ :=
    paint_spec m.fb (m.regs rx) (m.regs ry)
      ((List.range h).map (fun t => m.bytes (m.index + t)))
      (by intro i hi; simp only [List.length_map, List.length_range] at hi; exact hb i hi)
  refine ⟨{ m with fb := fb', regs := upd m.regs 0xF (if vf then 1 else 0) }, vf,
    ?_, hbit, rfl, hvf, rfl, rfl, rfl⟩
  simp [execute_ins, get_register, hrx, hry, hsprite, hpaint, set_register]

/-- Witness for `C2_display_linear`: a one-row sprite `0xFF` read from
address 0, drawn at the origin. -/
theorem C2_witness :
    ∃ m', execute_ins [] 0
        { new_machine with bytes := upd new_machine.bytes 0 0xFF }
        (OpCodes.Display 0 1 1) = some m' ∧
      (∀ idx, m'.fb.bit_buffer idx =
        new_framebuffer.bit_buffer idx ^^^ rows_mask 0 0 [0xFF] idx) ∧
      m'.bytes = upd new_machine.bytes 0 0xFF := by
  obtain ⟨m', vf, hrun, hbit, hregs, hvf, hbytes, _, _⟩ :=
    C2_display_linear { new_machine with bytes := upd new_machine.bytes 0 0xFF }
      [] 0 0 1 1 (by norm_num) (by norm_num) (by decide)
      (by intro i hi; interval_cases i; norm_num [new_machine])
  refine ⟨m', hrun, ?_, hbytes⟩
  intro idx
  have hb := hbit idx
  simpa [new_machine, new_framebuffer, upd] using hb

end Emuchip
